import Mathlib

/-!
Verification development for `scrape_carbox.py`, a dealer-inventory scraper.

The file shallowly embeds the pure core of the program: the regex-driven
field extraction (`_clean_price`, `extract_specs_from_html`), the per-page
VIN/price resolution performed by `scrape_today` (including the background
JSON response listener `handle_response`), the listing-page BFS of
`collect_vehicle_urls`, and the snapshot diff / rollup logic of `main` and
`rollup`.

Modelling conventions:
* Strings are Lean `String`s (lists of `Char`); all character classes are
  modelled over ASCII, matching the data the scraper actually handles.
* `re` regular expressions are compiled by hand into character-list
  scanners; `\b` word boundaries are modelled by maximal word-character
  tokens, which is equivalent for the fixed patterns used by the source
  (each pattern consists solely of word characters).
* BeautifulSoup is an external collaborator: a parsed page is a `Page`
  record holding exactly the query results the source reads from the soup
  (JSON-LD script bodies, visible text, title, canonical href,
  SPECIFICATIONS block text).
* Playwright is an external collaborator: a browsing session is abstracted
  by the link/harvest functions it returns for each URL.
* Python `str(int(float(num)))` on an all-digits `num` is modelled as the
  exact decimal numeral of the digit string's value; for inputs beyond
  2^53 CPython's float round-trip may perturb the value, but never the
  shape of the output (a canonical non-negative numeral), which is all the
  claims about it depend on.
-/

/-- ASCII model of Python whitespace: `str.strip()` default set and the
regex class `\s`. -/
def isPySpace (c : Char) : Bool :=
  c == ' ' || c == '\t' || c == '\n' || c == '\r' || c == '\x0b' || c == '\x0c'

/-- Python `str.strip()` (ASCII whitespace model). -/
def pyStrip (s : String) : String :=
  ⟨((s.data.dropWhile isPySpace).reverse.dropWhile isPySpace).reverse⟩

/-- Python `str.upper()` (ASCII model: per-character `Char.toUpper`). -/
def pyUpper (s : String) : String :=
  ⟨s.data.map Char.toUpper⟩

/-- Python `str.strip(ch)` for a single character, e.g. `tail.strip("/")`. -/
def pyStripChar (bad : Char) (s : String) : String :=
  ⟨((s.data.dropWhile (fun c => c == bad)).reverse.dropWhile (fun c => c == bad)).reverse⟩

/-- Is `pat` an initial segment of `cs`?  (Used to scan for substrings.) -/
def leadsWith : List Char → List Char → Bool
  | [], _ => true
  | _ :: _, [] => false
  | a :: as, b :: bs => a == b && leadsWith as bs

/-- Does `cs` contain `pat` as a contiguous subsequence?  Models Python's
`in` on strings. -/
def containsSeq (pat : List Char) : List Char → Bool
  | [] => leadsWith pat []
  | c :: rest => leadsWith pat (c :: rest) || containsSeq pat rest

/-- Character class of `VIN_RE`, i.e. `[A-HJ-NPR-Z0-9]`: upper-case letters
without I, O, Q, plus digits.  (The regex's A-H, J-N, P-R, S-Z ranges are
exactly A-Z minus I, O, Q.) -/
def isVinChar (c : Char) : Bool :=
  (65 ≤ c.toNat && c.toNat ≤ 90 && c.toNat ≠ 73 && c.toNat ≠ 79 && c.toNat ≠ 81)
    || (48 ≤ c.toNat && c.toNat ≤ 57)

/-- `VIN_RE.fullmatch(s)`: the whole string is exactly 17 VIN characters
(the anchoring `\b`s are vacuous on a full match of word characters). -/
def vinFull (s : String) : Bool :=
  s.length == 17 && s.data.all isVinChar

/-- Regex word character `\w` (ASCII model). -/
def isWordChar (c : Char) : Bool :=
  c.isAlpha || c.isDigit || c == '_'

/-- Accumulator pass splitting a character list into maximal runs of word
characters; `cur` holds the current run reversed. -/
def wordTokensAux : List Char → List Char → List (List Char)
  | [], cur => if cur.isEmpty then [] else [cur.reverse]
  | c :: rest, cur =>
    if isWordChar c then wordTokensAux rest (c :: cur)
    else if cur.isEmpty then wordTokensAux rest []
    else cur.reverse :: wordTokensAux rest []

/-- The maximal word-character tokens of a text, in order.  A regex match
of the form `\b(w…w)\b` where every `w` is a word character is exactly a
whole token satisfying the body, so `re.search` of such a pattern is
`find?` over these tokens. -/
def wordTokens (cs : List Char) : List (List Char) :=
  wordTokensAux cs []

/-- `VIN_RE.search(text)`: first token that is 17 VIN characters. -/
def textVinToken (text : String) : Option (List Char) :=
  (wordTokens text.data).find? (fun t => t.length == 17 && t.all isVinChar)

/-- Does a token match the body of `YEAR_RE = \b(19|20)\d{2}\b`? -/
def isYearToken : List Char → Bool
  | [a, b, c, d] =>
    ((a == '1' && b == '9') || (a == '2' && b == '0')) && c.isDigit && d.isDigit
  | _ => false

/-- `YEAR_RE.search(s)`: first 4-character token `19xx`/`20xx`. -/
def yearSearch (s : String) : Option String :=
  ((wordTokens s.data).find? isYearToken).map (fun t => (⟨t⟩ : String))

/-- Parse the `(?:,[0-9]{3})+` part of `PRICE_RE` greedily: returns the
consumed characters (with commas) and the remainder. -/
def commaGroupsAux : List Char → List Char × List Char
  | ',' :: a :: b :: c :: rest =>
    if a.isDigit && b.isDigit && c.isDigit then
      let r := commaGroupsAux rest
      (',' :: a :: b :: c :: r.1, r.2)
    else ([], ',' :: a :: b :: c :: rest)
  | cs => ([], cs)

/-- Try the first alternative of `PRICE_RE`'s group with exactly `k`
leading digits (`[0-9]{1,3}` backtracks from 3 to 1). -/
def priceTryK (k : Nat) (cs : List Char) : Option (List Char) :=
  let ds := cs.take k
  if ds.length == k && ds.all Char.isDigit then
    let g := commaGroupsAux (cs.drop k)
    if g.1.isEmpty then none else some (ds ++ g.1)
  else none

/-- First alternative `[0-9]{1,3}(?:,[0-9]{3})+` of `PRICE_RE`'s group,
with the greedy/backtracking behaviour of `{1,3}`. -/
def priceCommaForm (cs : List Char) : Option (List Char) :=
  match priceTryK 3 cs with
  | some g => some g
  | none =>
    match priceTryK 2 cs with
    | some g => some g
    | none => priceTryK 1 cs

/-- Attempt `PRICE_RE` at one position: optional `\$`, then `\s*`, then the
captured group (comma form preferred over a plain digit run, as regex
alternation tries the left branch first).  The trailing optional cents do
not affect the captured group. -/
def priceMatchAt (cs : List Char) : Option (List Char) :=
  let cs1 := match cs with
    | '$' :: r => r
    | _ => cs
  let cs2 := cs1.dropWhile isPySpace
  match priceCommaForm cs2 with
  | some g => some g
  | none =>
    match cs2.takeWhile Char.isDigit with
    | [] => none
    | ds => some ds

/-- `PRICE_RE.search`: leftmost position where the pattern matches;
returns group 1 (digits, possibly comma-separated). -/
def priceSearchGroup : List Char → Option (List Char)
  | [] => none
  | c :: rest =>
    match priceMatchAt (c :: rest) with
    | some g => some g
    | none => priceSearchGroup rest

/-- The step of `_clean_price` that replaces U+00A0 and U+202F by plain
spaces. -/
def normNbsp (s : String) : String :=
  ⟨s.data.map (fun c => if c == '\u00A0' || c == '\u202F' then ' ' else c)⟩

/-- Value of a digit string. -/
def digitsToNat (ds : List Char) : Nat :=
  ds.foldl (fun n c => n * 10 + (c.toNat - 48)) 0

/-- `_clean_price(val)`: empty string is falsy; otherwise search
`PRICE_RE`, strip commas from group 1 and return `str(int(float(num)))`
(see the module comment on the float round-trip).  The `except` branch is
unreachable: `num` is always a non-empty digit string. -/
def _clean_price (val : String) : String :=
  if val = "" then ""
  else
    match priceSearchGroup (normNbsp val).data with
    | none => ""
    | some g => Nat.repr (digitsToNat (g.filter (fun c => !(c == ','))))

/-- A parsed JSON value as the scraper sees it: the walks in
`extract_specs_from_html` and `handle_response` recurse into dicts and
lists, inspect string values, and ignore everything else (numbers,
booleans, `null` are `jother`). -/
inductive Jval where
  | jstr : String → Jval
  | jobj : List (String × Jval) → Jval
  | jarr : List Jval → Jval
  | jother : Jval

mutual

/-- The string values reachable from a JSON value through dict values and
list elements, in depth-first order.  The source walks the same graph with
an explicit LIFO stack (and pushes an `offers` sub-dict twice); that only
permutes / repeats the visiting order, so the walks below, which fold an
idempotent first-hit update over these strings, are observationally the
same. -/
def jstrings : Jval → List String
  | Jval.jstr s => [s]
  | Jval.jobj kvs => jstringsKvs kvs
  | Jval.jarr l => jstringsArr l
  | Jval.jother => []

/-- String values under a dict's entries. -/
def jstringsKvs : List (String × Jval) → List String
  | [] => []
  | (_, v) :: rest => jstrings v ++ jstringsKvs rest

/-- String values under a list's elements. -/
def jstringsArr : List Jval → List String
  | [] => []
  | j :: rest => jstrings j ++ jstringsArr rest

end

/-- Fold a per-string update over every string value of a JSON value:
the generic shape of both `while stack:` walks in the source. -/
def foldStrs {A : Type} (f : String → A → A) (j : Jval) (acc : A) : A :=
  (jstrings j).foldl (fun a s => f s a) acc

/-- One string value seen by the JSON-LD walk of
`extract_specs_from_html` (lines 44-62): record the first full VIN match
and the first cleanable price. -/
def seeLdStr (v : String) (acc : Option String × String) : Option String × String :=
  let s := pyStrip v
  let vin := if acc.1 = none ∧ vinFull s then some (pyUpper s) else acc.1
  let price :=
    if acc.2 = "" then
      let p := _clean_price s
      if p = "" then acc.2 else p
    else acc.2
  (vin, price)

/-- The `for tag in soup.find_all("script", type=…ld+json…)` loop:
scripts whose body failed `json.loads` are `none` and skipped. -/
def ldScanScripts (scripts : List (Option Jval)) : Option String × String :=
  scripts.foldl
    (fun acc os =>
      match os with
      | none => acc
      | some j => foldStrs seeLdStr j acc)
    (none, "")

/-- A rendered page as `extract_specs_from_html` queries it through
BeautifulSoup: the JSON-LD script bodies (parsed; `none` where
`json.loads` raised), the visible text `soup.get_text(" ", strip=True)`
(the caller appends the client-rendered body text to the HTML, so it is
part of this text), the raw `soup.title.string` (`""` when absent), the
canonical `link` href when present, and the `get_text` of the parent of a
"SPECIFICATIONS" string when the platform exposes one. -/
structure Page where
  scripts : List (Option Jval)
  text : String
  title : String
  canonicalHref : Option String
  specBlockText : Option String

/-- The record produced by the Field Resolver (plus `url`); `main` later
prepends a `date` column, which carries no logic and is omitted here. -/
structure VehicleRecord where
  year : String
  make : String
  model : String
  vin : String
  price : String
  url : String
deriving DecidableEq

/-- The literal `"/inventory/"`. -/
def invMarker : String := "/inventory/"

/-- `"/inventory/" in url`. -/
def hasInventory (url : String) : Bool :=
  containsSeq invMarker.data url.data

/-- Everything after the first occurrence of `sep`, or `none` when `sep`
does not occur. -/
def afterFirstSep (sep : List Char) : List Char → Option (List Char)
  | [] => if leadsWith sep [] then some [] else none
  | c :: rest =>
    if leadsWith sep (c :: rest) then some ((c :: rest).drop sep.length)
    else afterFirstSep sep rest

/-- Python `s.split(sep, 1)[-1]`: the part after the first occurrence of
`sep`, or `s` itself when `sep` does not occur. -/
def pySplitFirstTail (sep s : String) : String :=
  match afterFirstSep sep.data s.data with
  | some t => (⟨t⟩ : String)
  | none => s

/-- Python `str.split(ch)` (single-character separator, keeps empty
parts); `cur` holds the current part reversed. -/
def splitCharAux (sep : Char) : List Char → List Char → List (List Char)
  | [], cur => [cur.reverse]
  | c :: rest, cur =>
    if c == sep then cur.reverse :: splitCharAux sep rest []
    else splitCharAux sep rest (c :: cur)

/-- The URL-derived path segments of `extract_specs_from_html` lines
88-90: `url.split("/inventory/", 1)[-1].strip("/")`, split on `/`, empty
parts dropped. -/
def urlParts (url : String) : List String :=
  ((splitCharAux '/' (pyStripChar '/' (pySplitFirstTail invMarker url)).data []).map
      (fun t => (⟨t⟩ : String))).filter
    (fun p => decide (p ≠ ""))

/-- `url = url_hint or ""` then `url = canonical["href"]` when the page has
a canonical link with a truthy href (lines 83-86). -/
def resolvedUrl (pg : Page) (url_hint : String) : String :=
  match pg.canonicalHref with
  | some h => if h = "" then url_hint else h
  | none => url_hint

/-- Character class `[A-Z0-9\-\s]` of the MAKE/MODEL label regexes. -/
def labelClassChar (c : Char) : Bool :=
  (65 ≤ c.toNat && c.toNat ≤ 90) || c.isDigit || c == '-' || isPySpace c

/-- Attempt `LBL\s+([A-Z0-9\-\s]+)` at one position (the `\b` before the
label is checked by the caller).  When the greedy `\s+` leaves no class
character it backtracks by one space, capturing that space (the class
contains `\s`), which the caller's `strip()` then empties. -/
def searchLabelAt (lbl cs : List Char) : Option (List Char) :=
  if leadsWith lbl cs then
    let after := cs.drop lbl.length
    let sp := after.takeWhile isPySpace
    if sp.isEmpty then none
    else
      let rem := after.dropWhile isPySpace
      match rem.takeWhile labelClassChar with
      | [] => if 2 ≤ sp.length then some (sp.drop (sp.length - 1)) else none
      | cap => some cap
  else none

/-- Scan for the leftmost match of `\bLBL\s+([A-Z0-9\-\s]+)`;
`prevWord` tracks whether the previous character was a word character
(no `\b` there if so). -/
def searchLabelFrom (lbl : List Char) : Bool → List Char → Option (List Char)
  | _, [] => none
  | prevWord, c :: rest =>
    match (if prevWord then none else searchLabelAt lbl (c :: rest)) with
    | some cap => some cap
    | none => searchLabelFrom lbl (isWordChar c) rest

/-- `re.search(r"\bLBL\s+([A-Z0-9\-\s]+)", s)`, returning group 1. -/
def searchLabel (lbl : String) (s : String) : Option String :=
  (searchLabelFrom lbl.data false s.data).map (fun cs => (⟨cs⟩ : String))

/-- Lines 88-93: make/model from the URL's inventory-relative path
segments (first = make, second = model, upper-cased) when the URL is
truthy, contains the inventory marker and yields at least two
segments. -/
def urlMM (url : String) : String × String :=
  if url ≠ "" ∧ hasInventory url then
    match urlParts url with
    | m :: md :: _ => (pyUpper m, pyUpper md)
    | _ => ("", "")
  else ("", "")

/-- Lines 96-109: adjustments from a SPECIFICATIONS block, when one
exists: a year found in the (upper-cased) block text overrides the title
year; MAKE/MODEL labels fill make/model only when still empty. -/
def specBlockAdjust (blkText : Option String) (year make model : String) :
    String × String × String :=
  match blkText with
  | none => (year, make, model)
  | some blkRaw =>
    let blk := pyUpper blkRaw
    ((yearSearch blk).getD year,
     (if make = "" then
        match searchLabel "MAKE" blk with
        | some v => pyStrip v
        | none => make
      else make),
     (if model = "" then
        match searchLabel "MODEL" blk with
        | some v => pyStrip v
        | none => model
      else model))

/-- `extract_specs_from_html(html, url_hint)` (lines 31-118): resolve
Year/Make/Model/VIN/Price from JSON-LD, visible text, the title, the URL
path, and the SPECIFICATIONS block, with the source's exact fallback
order. -/
def extract_specs_from_html (pg : Page) (url_hint : String) : VehicleRecord :=
  let ld := ldScanScripts pg.scripts
  let vin : Option String :=
    match ld.1 with
    | some v => some v
    | none => (textVinToken pg.text).map (fun t => pyUpper (⟨t⟩ : String))
  let price : String := if ld.2 = "" then _clean_price pg.text else ld.2
  let year : String := (yearSearch (pyUpper (pyStrip pg.title))).getD ""
  let url : String := resolvedUrl pg url_hint
  let mm : String × String := urlMM url
  let ymm : String × String × String :=
    specBlockAdjust pg.specBlockText year mm.1 mm.2
  { year := ymm.1, make := ymm.2.1, model := ymm.2.2,
    vin := vin.getD "", price := price,
    url := if url = "" then url_hint else url }

/-- One string value seen by the `handle_response` walk (lines 223-241):
a full VIN match is added to the `json_vins` set; otherwise a cleanable
price is `setdefault`-ed for every VIN seen so far.  The Python `set` has
no specified iteration order; the state models it as an insertion-ordered
list, which realises one admissible order. -/
def seeRespStr (v : String) (st : List String × List (String × String)) :
    List String × List (String × String) :=
  let s := pyStrip v
  if vinFull s then
    let u := pyUpper s
    (if u ∈ st.1 then st.1 else st.1 ++ [u], st.2)
  else
    let p := _clean_price s
    if p ≠ "" ∧ st.1 ≠ [] then
      (st.1,
        st.1.foldl
          (fun ps vv => if (ps.lookup vv).isSome then ps else ps ++ [(vv, p)])
          st.2)
    else st

/-- `handle_response(resp)` for one qualifying response (JSON content type
and inventory-ish URL — that filter is part of the collaborator boundary
here): `none` models a body that failed `resp.json()` and is ignored. -/
def handle_response (st : List String × List (String × String))
    (resp : Option Jval) : List String × List (String × String) :=
  match resp with
  | none => st
  | some j => foldStrs seeRespStr j st

/-- Everything the crawler observes for one successfully processed detail
URL: the qualifying background JSON responses captured during its load,
the parsed page, and the navigated URL (the `url_hint`).  Pages whose
navigation or processing raised are skipped by the `except` and simply do
not appear. -/
structure PageEvent where
  responses : List (Option Jval)
  page : Page
  hint : String

/-- The mutable state of the `scrape_today` loop. -/
structure ScrapeState where
  json_vins : List String
  json_prices : List (String × String)
  rows : List VehicleRecord

/-- Lines 261-266: when extraction produced no VIN and background VINs
exist, assign the first background VIN not already used by an earlier
row. -/
def fillVinFromJson (specs : VehicleRecord) (jsonVins usedVins : List String) :
    VehicleRecord :=
  if specs.vin = "" ∧ jsonVins ≠ [] then
    match jsonVins.find? (fun v => decide (v ∉ usedVins)) with
    | some v => { specs with vin := v }
    | none => specs
  else specs

/-- Lines 267-270: when a VIN is known but no price was extracted, take
the background-JSON price recorded for that VIN, if any. -/
def fillPriceFromJson (specs : VehicleRecord)
    (jsonPrices : List (String × String)) : VehicleRecord :=
  if specs.vin ≠ "" ∧ specs.price = "" then
    match jsonPrices.lookup specs.vin with
    | some p => if p = "" then specs else { specs with price := p }
    | none => specs
  else specs

/-- `{r["vin"] for r in rows if r.get("vin")}`. -/
def usedVins (rows : List VehicleRecord) : List String :=
  rows.filterMap (fun r => if r.vin = "" then none else some r.vin)

/-- One iteration of the `for u in urls:` loop of `scrape_today`
(lines 245-275): fold in the responses observed for this page, extract,
fill VIN and price from the background-JSON state, and append the record
when it has a VIN. -/
def scrapeStep (st : ScrapeState) (ev : PageEvent) : ScrapeState :=
  let js := ev.responses.foldl handle_response (st.json_vins, st.json_prices)
  let specs0 := extract_specs_from_html ev.page ev.hint
  let specs1 := fillVinFromJson specs0 js.1 (usedVins st.rows)
  let specs2 := fillPriceFromJson specs1 js.2
  { json_vins := js.1, json_prices := js.2,
    rows := if specs2.vin = "" then st.rows else st.rows ++ [specs2] }

/-- Lines 280-285: de-dupe by VIN, keeping the first record for each VIN
and dropping records with an empty VIN. -/
def dedupByVin (rows : List VehicleRecord) : List VehicleRecord :=
  rows.foldl
    (fun acc r =>
      if r.vin ≠ "" ∧ (∀ q ∈ acc, q.vin ≠ r.vin) then acc ++ [r] else acc)
    []

/-- `scrape_today()` over an abstract crawl trace: the final deduplicated
record list. -/
def scrape_today (events : List PageEvent) : List VehicleRecord :=
  dedupByVin ((events.foldl scrapeStep ⟨[], [], []⟩).rows)

/-- `load_prev_inventory` / the `prev_path` logic of `main` (lines
290-293, 312-314): a missing snapshot file is an absent snapshot, read as
an empty record set, not an error. -/
def load_prev_inventory (file : Option (List VehicleRecord)) :
    List VehicleRecord :=
  file.getD []

/-- The VIN column of a snapshot; `set(df["vin"])` membership is list
membership here. -/
def vinColumn (rs : List VehicleRecord) : List String :=
  rs.map (fun r => r.vin)

/-- `added` of `main` (lines 328-334): with an empty previous snapshot all
current records are added; otherwise the current records whose VIN is in
`curr_vins - prev_vins`. -/
def compute_added (prev curr : List VehicleRecord) : List VehicleRecord :=
  if prev = [] then curr
  else
    curr.filter
      (fun r => decide (r.vin ∈ vinColumn curr) && decide (r.vin ∉ vinColumn prev))

/-- `removed` of `main` (lines 328-335): empty for an empty previous
snapshot; otherwise the previous records whose VIN is in
`prev_vins - curr_vins`. -/
def compute_removed (prev curr : List VehicleRecord) : List VehicleRecord :=
  if prev = [] then []
  else
    prev.filter
      (fun r => decide (r.vin ∈ vinColumn prev) && decide (r.vin ∉ vinColumn curr))

/-- `to_int` of `main` (lines 345-347): strip commas and whitespace, then
Python `int(...)`, `None` on failure.  (CPython's `int` additionally
accepts underscore digit grouping and non-ASCII digits; snapshot prices
are plain ASCII digit strings, so that is not modelled.) -/
def to_int (s : String) : Option Int :=
  let cs := (pyStrip (⟨s.data.filter (fun c => !(c == ','))⟩ : String)).data
  let core := fun (ds : List Char) (sign : Bool) =>
    if ds ≠ [] ∧ ds.all Char.isDigit then
      some (if sign then -(digitsToNat ds : Int) else (digitsToNat ds : Int))
    else none
  match cs with
  | '+' :: ds => core ds false
  | '-' :: ds => core ds true
  | ds => core ds false

/-- One `priceChanges` entry (lines 352-362): `_new` fields come from the
current snapshot, falling back to the `_old` ones when falsy; prices and
delta are stringified integers. -/
structure PriceChange where
  date : String
  vin : String
  year : String
  make : String
  model : String
  old_price : String
  new_price : String
  delta : String
  url : String
deriving DecidableEq

/-- Build one `priceChanges` row from a merged (previous, current) pair
whose prices parsed to `o` and `n`. -/
def mkPriceChange (today : String) (p c : VehicleRecord) (o n : Int) :
    PriceChange :=
  { date := today, vin := p.vin,
    year := if c.year = "" then p.year else c.year,
    make := pyUpper (if c.make = "" then p.make else c.make),
    model := pyUpper (if c.model = "" then p.model else c.model),
    old_price := toString o, new_price := toString n,
    delta := toString (n - o),
    url := if c.url = "" then p.url else c.url }

/-- `pd.merge(prev, df, on="vin", how="inner")`: all pairs with equal
VIN. -/
def mergedPairs (prev curr : List VehicleRecord) :
    List (VehicleRecord × VehicleRecord) :=
  prev.flatMap
    (fun p => (curr.filter (fun c => decide (c.vin = p.vin))).map (fun c => (p, c)))

/-- `price_changes` of `main` (lines 337-364): empty when the previous
snapshot is empty; otherwise one entry per merged pair whose two prices
both parse and differ. -/
def price_changes (today : String) (prev curr : List VehicleRecord) :
    List PriceChange :=
  if prev = [] then []
  else
    (mergedPairs prev curr).filterMap
      (fun pc =>
        match to_int pc.1.price, to_int pc.2.price with
        | some o, some n =>
          if o ≠ n then some (mkPriceChange today pc.1 pc.2 o n) else none
        | _, _ => none)

/-- One output row of `rollup`. -/
structure RollupGroup where
  year : String
  make : String
  model : String
  count : Nat
  vins : String
deriving DecidableEq

/-- The `(year, make, model)` groupby key of a record. -/
def recKey (r : VehicleRecord) : String × String × String :=
  (r.year, r.make, r.model)

/-- The key of a rollup row. -/
def rgKey (g : RollupGroup) : String × String × String :=
  (g.year, g.make, g.model)

/-- Python's lexicographic order on `(year, make, model)` tuples of
strings, as used by `groupby` / `sort_values(["year","make","model"])`. -/
def keyLe (a b : String × String × String) : Prop :=
  a.1 < b.1 ∨ (a.1 = b.1 ∧ (a.2.1 < b.2.1 ∨ (a.2.1 = b.2.1 ∧ a.2.2 ≤ b.2.2)))

instance : DecidableRel keyLe := fun a b => by unfold keyLe; infer_instance

/-- The records of one groupby group. -/
def groupRecs (records : List VehicleRecord) (k : String × String × String) :
    List VehicleRecord :=
  records.filter (fun r => decide (recKey r = k))

/-- `sorted(set(v))` over a group's VIN column. -/
def groupVins (records : List VehicleRecord) (k : String × String × String) :
    List String :=
  List.insertionSort (fun a b => a ≤ b) ((groupRecs records k).map (fun r => r.vin)).dedup

/-- One aggregated row: `count` is the `count` aggregation of the `vin`
column (the number of rows of the group — pandas `count` counts non-null
entries, and after `fillna("")` there are none), `vins` joins the sorted
deduplicated VINs. -/
def mkGroup (records : List VehicleRecord) (k : String × String × String) :
    RollupGroup :=
  { year := k.1, make := k.2.1, model := k.2.2,
    count := (groupRecs records k).length,
    vins := String.intercalate ", " (groupVins records k) }

/-- `rollup(df)` (lines 295-304): empty input gives the empty frame (same
columns); otherwise one row per distinct key, sorted ascending by the key
tuple.  A stable sort of the distinct keys realises
`groupby(...).reset_index().sort_values(...)`. -/
def rollup (records : List VehicleRecord) : List RollupGroup :=
  if records = [] then []
  else (List.insertionSort keyLe ((records.map recKey).dedup)).map (mkGroup records)

/-- The state of the `collect_vehicle_urls` listing BFS (lines 160-192):
harvested vehicle links, the visited set `seen_listing_pages`, and the
work queue `to_visit`.  The URL type is abstract (`α`): the source
manipulates URLs only as hashable values. -/
structure CrawlState (α : Type) where
  links : List α
  seen : List α
  queue : List α
deriving DecidableEq

/-- One iteration of the `while to_visit:` loop, parameterised by the
browsing session: `nav u` tells whether `page.goto(u)` succeeds (a failure
is caught and skips the page), `harvest u` the vehicle links found on the
page, and `next u` the pagination links `discover_next_pages()` returns on
it.  Returns `none` when the queue is empty (the loop exits). -/
def crawlStep {α : Type} [DecidableEq α] (nav : α → Bool)
    (harvest nxt : α → List α) (s : CrawlState α) : Option (CrawlState α) :=
  match s.queue with
  | [] => none
  | url :: rest =>
    if url ∈ s.seen then some { s with queue := rest }
    else
      let seen := s.seen ++ [url]
      if nav url then
        let links := s.links ++ (harvest url).filter (fun x => decide (x ∉ s.links))
        let queue := rest ++ (nxt url).filter (fun n => decide (n ∉ seen))
        some { links := links, seen := seen, queue := queue }
      else
        some { s with seen := seen, queue := rest }

/-- Run the BFS loop for `fuel` iterations (it stops early when the queue
empties; the source has no other stopping condition). -/
def crawlRun {α : Type} [DecidableEq α] (nav : α → Bool)
    (harvest nxt : α → List α) : Nat → CrawlState α → CrawlState α
  | 0, s => s
  | Nat.succ n, s =>
    match crawlStep nav harvest nxt s with
    | none => s
    | some s2 => crawlRun nav harvest nxt n s2

/-- A session (over `Nat`-coded URLs) on which every listing page links to
one fresh pagination page — the "pages keep producing new pagination
links" scenario. -/
def chainNext (k : Nat) : List Nat := [k + 1]

/-- Trivial navigation / harvest for the chained session. -/
def navAlways (_ : Nat) : Bool := true

/-- The chained session harvests no vehicle links. -/
def harvestNone (_ : Nat) : List Nat := []

/-- The queue seeded with the root only (the brute-force `?page=N` seeds
only lengthen the initial queue and are irrelevant to unboundedness). -/
def chainInit : CrawlState Nat := ⟨[], [], [0]⟩

/-- On the chained session the BFS neither drains its queue nor bounds the
number of visited listing pages: the visited set exceeds every bound and
the queue is never empty.  This is the negation of the claimed
"queue drains or a page-visit cap is hit" guarantee. -/
def crawlVisitsUnbounded : Prop :=
  (∀ N : Nat, ∃ fuel : Nat,
      N < (crawlRun navAlways harvestNone chainNext fuel chainInit).seen.length) ∧
  (∀ fuel : Nat,
      (crawlRun navAlways harvestNone chainNext fuel chainInit).queue ≠ [])

/-- The VIN fallback chain in the order the code consults the sources:
JSON-LD structured metadata, then the page's visible text, then the
background-JSON VINs (first one not used by an earlier record), else no
VIN. -/
def vinPrecedence (pg : Page) (jsonVins usedVins : List String) : String :=
  match (ldScanScripts pg.scripts).1 with
  | some v => v
  | none =>
    match textVinToken pg.text with
    | some t => pyUpper (⟨t⟩ : String)
    | none =>
      match jsonVins.find? (fun v => decide (v ∉ usedVins)) with
      | some v => v
      | none => ""

/-- A page with no JSON-LD whose visible text carries a VIN, for concrete
checks. -/
def pageTextVin : Page :=
  { scripts := [], text := "VIN 1HGCM82633A004352 listed", title := "",
    canonicalHref := none, specBlockText := none }

/-- A crawl trace event around `pageTextVin` with no background
responses. -/
def eventTextVin : PageEvent :=
  { responses := [], page := pageTextVin, hint := "h" }

/-- Concrete snapshot records for witnesses and counterexamples. -/
def recCivic : VehicleRecord :=
  ⟨"2020", "HONDA", "CIVIC", "1HGCM82633A004352", "15000", "u1"⟩

/-- A second concrete record with a distinct VIN. -/
def recF150 : VehicleRecord :=
  ⟨"2014", "FORD", "F150", "1FTFW1ET1EFA00001", "30000", "u2"⟩

/-- A page for determinism checks. -/
def pagePlain : Page :=
  { scripts := [], text := "some text", title := "2020 Honda Civic",
    canonicalHref := none, specBlockText := none }

/-- Invariant of the background-JSON listener state: every recorded VIN
is a full VIN match, every recorded price a canonical numeral. -/
def RespInv (st : List String × List (String × String)) : Prop :=
  (∀ v ∈ st.1, vinFull v = true) ∧
  (∀ kv ∈ st.2, ∃ n : Nat, kv.2 = Nat.repr n)

/-- Invariant of the `scrape_today` loop state: the listener invariant
plus, for every accumulated row, a 17-character VIN and an empty or
canonical price. -/
def ScrapeInv (st : ScrapeState) : Prop :=
  RespInv (st.json_vins, st.json_prices) ∧
  ∀ r ∈ st.rows,
    vinFull r.vin = true ∧ (r.price = "" ∨ ∃ n : Nat, r.price = Nat.repr n)

/- ------------------------------------------------------------------ -/
/- Helper lemmas (shared across the claim theorems).                   -/
/- ------------------------------------------------------------------ -/

/-- Folding preserves any invariant preserved by the step. -/
theorem foldl_pres {A B : Type} (P : A → Prop) (f : A → B → A)
    (hf : ∀ a b, P a → P (f a b)) :
    ∀ (l : List B) (a : A), P a → P (l.foldl f a)
  | [], _, h => h
  | b :: l, a, h => foldl_pres P f hf l (f a b) (hf a b h)

/-- A successful association-list lookup comes from a member pair. -/
theorem lookup_mem {α β : Type} [BEq α] [LawfulBEq α] {k : α} {p : β} :
    ∀ {ps : List (α × β)}, ps.lookup k = some p → (k, p) ∈ ps := by
  intro ps
  induction ps with
  | nil => intro h; simp [List.lookup] at h
  | cons kv ps ih =>
    intro h
    rw [List.lookup] at h
    cases hkv : (k == kv.1) with
    | false =>
      rw [hkv] at h
      exact List.mem_cons_of_mem _ (ih h)
    | true =>
      rw [hkv] at h
      have h2 : some kv.2 = some p := h
      injection h2 with h2
      have hka : k = kv.1 := by simpa using hkv
      rcases kv with ⟨a, b⟩
      simp only at hka h2
      rw [hka, h2]
      exact List.mem_cons_self (a, p) ps

/-- `vinFull` unfolded to a proposition. -/
theorem vinFull_iff (s : String) :
    vinFull s = true ↔ s.data.length = 17 ∧ ∀ c ∈ s.data, isVinChar c = true := by
  unfold vinFull
  rw [Bool.and_eq_true, List.all_eq_true,
    show s.length = s.data.length from rfl, beq_iff_eq]

/-- `Char.toUpper` fixes every VIN character. -/
theorem vinChar_toUpper (c : Char) (h : isVinChar c = true) : c.toUpper = c := by
  unfold isVinChar at h
  simp only [Bool.or_eq_true, Bool.and_eq_true, decide_eq_true_eq] at h
  unfold Char.toUpper
  rw [if_neg]
  omega

/-- `str.upper()` fixes a full VIN match. -/
theorem vinFull_pyUpper (s : String) (h : vinFull s = true) : pyUpper s = s := by
  have h' := (vinFull_iff s).1 h
  unfold pyUpper
  have hm : s.data.map Char.toUpper = s.data.map id :=
    List.map_congr_left (fun c hc => vinChar_toUpper c (h'.2 c hc))
  rw [hm, List.map_id]

/-- A full VIN match is a non-empty string. -/
theorem vinFull_ne_empty (s : String) (h : vinFull s = true) : s ≠ "" := by
  intro he
  subst he
  simp [vinFull] at h

/-- The token found by `VIN_RE.search` is itself a full VIN match. -/
theorem textVinToken_valid (t : String) (tok : List Char)
    (h : textVinToken t = some tok) : vinFull (⟨tok⟩ : String) = true := by
  unfold textVinToken at h
  have hp := List.find?_some h
  simp only [Bool.and_eq_true, List.all_eq_true, Nat.beq_eq_true_eq] at hp
  rw [vinFull_iff]
  exact ⟨hp.1, hp.2⟩

/-- `_clean_price` returns the empty string or a canonical decimal
numeral. -/
theorem clean_price_canonical (v : String) :
    _clean_price v = "" ∨ ∃ n : Nat, _clean_price v = Nat.repr n := by
  unfold _clean_price
  split
  · exact Or.inl rfl
  · split
    · exact Or.inl rfl
    · exact Or.inr ⟨_, rfl⟩

/-- `foldStrs` preserves any invariant preserved by its per-string
update. -/
theorem foldStrs_pres {A : Type} (P : A → Prop) (f : String → A → A)
    (hf : ∀ s a, P a → P (f s a)) (j : Jval) (a : A) (h : P a) :
    P (foldStrs f j a) :=
  foldl_pres P (fun a s => f s a) (fun a s ha => hf s a ha) (jstrings j) a h

/-- The JSON-LD walk only ever records full VIN matches. -/
theorem seeLdStr_vin (s : String) (acc : Option String × String)
    (h : ∀ v, acc.1 = some v → vinFull v = true) :
    ∀ v, (seeLdStr s acc).1 = some v → vinFull v = true := by
  intro v hv
  unfold seeLdStr at hv
  simp only at hv
  split at hv
  · rename_i hcond
    injection hv with hv
    rw [← hv, vinFull_pyUpper _ hcond.2]
    exact hcond.2
  · exact h v hv

/-- The JSON-LD walk only ever records cleaned prices. -/
theorem seeLdStr_price (s : String) (acc : Option String × String)
    (h : acc.2 = "" ∨ ∃ n : Nat, acc.2 = Nat.repr n) :
    (seeLdStr s acc).2 = "" ∨ ∃ n : Nat, (seeLdStr s acc).2 = Nat.repr n := by
  unfold seeLdStr
  simp only
  split
  · split
    · exact h
    · rename_i hp
      rcases clean_price_canonical (pyStrip s) with hc | hc
      · exact absurd hc hp
      · exact Or.inr hc
  · exact h

/-- Any VIN produced by the JSON-LD scan of the scripts is a full VIN
match. -/
theorem ldScan_vin (scripts : List (Option Jval)) :
    ∀ v, (ldScanScripts scripts).1 = some v → vinFull v = true := by
  unfold ldScanScripts
  refine foldl_pres (fun acc : Option String × String =>
      ∀ v, acc.1 = some v → vinFull v = true) _ ?_ scripts (none, "") ?_
  · intro acc os h
    cases os with
    | none => exact h
    | some j => exact foldStrs_pres _ seeLdStr (fun s a ha => seeLdStr_vin s a ha) j acc h
  · intro v hv
    simp at hv

/-- Any price produced by the JSON-LD scan is empty or a canonical
numeral. -/
theorem ldScan_price (scripts : List (Option Jval)) :
    (ldScanScripts scripts).2 = "" ∨
      ∃ n : Nat, (ldScanScripts scripts).2 = Nat.repr n := by
  unfold ldScanScripts
  refine foldl_pres (fun acc : Option String × String =>
      acc.2 = "" ∨ ∃ n : Nat, acc.2 = Nat.repr n) _ ?_ scripts (none, "") (Or.inl rfl)
  intro acc os h
  cases os with
  | none => exact h
  | some j => exact foldStrs_pres _ seeLdStr (fun s a ha => seeLdStr_price s a ha) j acc h

/-- The VIN field of an extracted record, spelled out: JSON-LD first, then
the visible text, else empty. -/
theorem extract_vin_eq (pg : Page) (hint : String) :
    (extract_specs_from_html pg hint).vin =
      (match (ldScanScripts pg.scripts).1 with
       | some v => some v
       | none => (textVinToken pg.text).map
           (fun t => pyUpper (⟨t⟩ : String))).getD "" := rfl

/-- The price field of an extracted record, spelled out. -/
theorem extract_price_eq (pg : Page) (hint : String) :
    (extract_specs_from_html pg hint).price =
      (if (ldScanScripts pg.scripts).2 = "" then _clean_price pg.text
       else (ldScanScripts pg.scripts).2) := rfl

/-- An extracted record's VIN is empty or a full VIN match. -/
theorem extract_vin_ok (pg : Page) (hint : String) :
    (extract_specs_from_html pg hint).vin = "" ∨
      vinFull (extract_specs_from_html pg hint).vin = true := by
  rw [extract_vin_eq]
  cases hld : (ldScanScripts pg.scripts).1 with
  | some v => exact Or.inr (ldScan_vin pg.scripts v hld)
  | none =>
    cases ht : textVinToken pg.text with
    | none => exact Or.inl rfl
    | some t =>
      have he : (Option.map (fun t => pyUpper (⟨t⟩ : String)) (some t)).getD "" =
          pyUpper (⟨t⟩ : String) := rfl
      rw [he]
      have hv := textVinToken_valid pg.text t ht
      rw [vinFull_pyUpper _ hv]
      exact Or.inr hv

/-- An extracted record's price is empty or a canonical numeral. -/
theorem extract_price_ok (pg : Page) (hint : String) :
    (extract_specs_from_html pg hint).price = "" ∨
      ∃ n : Nat, (extract_specs_from_html pg hint).price = Nat.repr n := by
  rw [extract_price_eq]
  split
  · exact clean_price_canonical pg.text
  · exact ldScan_price pg.scripts

/-- The per-string listener update preserves the listener invariant. -/
theorem seeRespStr_inv (s : String) (st : List String × List (String × String))
    (h : RespInv st) : RespInv (seeRespStr s st) := by
  obtain ⟨h1, h2⟩ := h
  unfold RespInv
  simp only [seeRespStr]
  split
  · rename_i hvin
    constructor
    · intro v hv
      simp only at hv
      split at hv
      · exact h1 v hv
      · rcases List.mem_append.1 hv with hv | hv
        · exact h1 v hv
        · simp at hv
          rw [hv, vinFull_pyUpper _ hvin]
          exact hvin
    · exact h2
  · split
    · rename_i hp
      refine ⟨h1, ?_⟩
      simp only
      refine foldl_pres (fun ps => ∀ kv ∈ ps, ∃ n : Nat, kv.2 = Nat.repr n)
        _ ?_ st.1 st.2 h2
      intro ps vv hps kv hkv
      split at hkv
      · exact hps kv hkv
      · rcases List.mem_append.1 hkv with hkv | hkv
        · exact hps kv hkv
        · simp at hkv
          rcases clean_price_canonical (pyStrip s) with hc | hc
          · exact absurd hc hp.1
          · rw [hkv]
            simpa using hc
    · exact ⟨h1, h2⟩

/-- `handle_response` preserves the listener invariant. -/
theorem handle_response_inv (st : List String × List (String × String))
    (resp : Option Jval) (h : RespInv st) : RespInv (handle_response st resp) := by
  cases resp with
  | none => exact h
  | some j => exact foldStrs_pres RespInv seeRespStr seeRespStr_inv j st h

/-- `fillVinFromJson` yields an empty VIN or a full VIN match. -/
theorem fillVin_vin (specs : VehicleRecord) (jsonVins usedVins : List String)
    (hs : specs.vin = "" ∨ vinFull specs.vin = true)
    (hj : ∀ v ∈ jsonVins, vinFull v = true) :
    (fillVinFromJson specs jsonVins usedVins).vin = "" ∨
      vinFull (fillVinFromJson specs jsonVins usedVins).vin = true := by
  unfold fillVinFromJson
  split
  · split
    · rename_i v hfind
      exact Or.inr (hj v (List.mem_of_find?_eq_some hfind))
    · exact hs
  · exact hs

/-- `fillVinFromJson` does not touch the price. -/
theorem fillVin_price (specs : VehicleRecord) (jsonVins usedVins : List String) :
    (fillVinFromJson specs jsonVins usedVins).price = specs.price := by
  unfold fillVinFromJson
  split
  · split <;> rfl
  · rfl

/-- `fillPriceFromJson` does not touch the VIN. -/
theorem fillPrice_vin (specs : VehicleRecord) (ps : List (String × String)) :
    (fillPriceFromJson specs ps).vin = specs.vin := by
  unfold fillPriceFromJson
  split
  · split
    · split <;> rfl
    · rfl
  · rfl

/-- `fillPriceFromJson` yields an empty or canonical price. -/
theorem fillPrice_price (specs : VehicleRecord) (ps : List (String × String))
    (hs : specs.price = "" ∨ ∃ n : Nat, specs.price = Nat.repr n)
    (hp : ∀ kv ∈ ps, ∃ n : Nat, kv.2 = Nat.repr n) :
    (fillPriceFromJson specs ps).price = "" ∨
      ∃ n : Nat, (fillPriceFromJson specs ps).price = Nat.repr n := by
  unfold fillPriceFromJson
  split
  · split
    · rename_i p hl
      split
      · exact hs
      · have := hp _ (lookup_mem hl)
        exact Or.inr (by simpa using this)
    · exact hs
  · exact hs

/-- One crawl-loop iteration preserves the scrape invariant. -/
theorem scrapeStep_inv (st : ScrapeState) (ev : PageEvent)
    (h : ScrapeInv st) : ScrapeInv (scrapeStep st ev) := by
  obtain ⟨hresp, hrows⟩ := h
  have hjs : RespInv (ev.responses.foldl handle_response (st.json_vins, st.json_prices)) :=
    foldl_pres RespInv handle_response handle_response_inv ev.responses _ hresp
  unfold scrapeStep
  constructor
  · exact hjs
  · intro r hr
    simp only at hr
    split at hr
    · exact hrows r hr
    · rename_i hne
      rcases List.mem_append.1 hr with hr | hr
      · exact hrows r hr
      · simp at hr
        subst hr
        have hvin0 := extract_vin_ok ev.page ev.hint
        have hprice0 := extract_price_ok ev.page ev.hint
        have hvin1 := fillVin_vin (extract_specs_from_html ev.page ev.hint)
          (ev.responses.foldl handle_response (st.json_vins, st.json_prices)).1
          (usedVins st.rows) hvin0 hjs.1
        have hvin2 := fillPrice_vin
          (fillVinFromJson (extract_specs_from_html ev.page ev.hint)
            (ev.responses.foldl handle_response (st.json_vins, st.json_prices)).1
            (usedVins st.rows))
          (ev.responses.foldl handle_response (st.json_vins, st.json_prices)).2
        have hprice1 : (fillVinFromJson (extract_specs_from_html ev.page ev.hint)
            (ev.responses.foldl handle_response (st.json_vins, st.json_prices)).1
            (usedVins st.rows)).price = "" ∨
            ∃ n : Nat, (fillVinFromJson (extract_specs_from_html ev.page ev.hint)
              (ev.responses.foldl handle_response (st.json_vins, st.json_prices)).1
              (usedVins st.rows)).price = Nat.repr n := by
          rw [fillVin_price]
          exact hprice0
        have hprice2 := fillPrice_price _ _ hprice1 hjs.2
        constructor
        · rw [hvin2] at hne ⊢
          rcases hvin1 with hv | hv
          · exact absurd hv hne
          · exact hv
        · exact hprice2

/-- Anything kept by the dedup fold was in the accumulator or the input. -/
theorem dedup_sub :
    ∀ (rows acc : List VehicleRecord) (r : VehicleRecord),
      r ∈ rows.foldl
          (fun acc r =>
            if r.vin ≠ "" ∧ (∀ q ∈ acc, q.vin ≠ r.vin) then acc ++ [r] else acc)
          acc →
      r ∈ acc ∨ r ∈ rows := by
  intro rows
  induction rows with
  | nil => intro acc r h; exact Or.inl h
  | cons r0 rows ih =>
    intro acc r h
    rcases ih _ r h with h2 | h2
    · simp only at h2
      split at h2
      · rcases List.mem_append.1 h2 with h3 | h3
        · exact Or.inl h3
        · simp at h3
          exact Or.inr (by simp [h3])
      · exact Or.inl h2
    · exact Or.inr (List.mem_cons_of_mem _ h2)

/-- Every record surviving `dedupByVin` is one of the input rows. -/
theorem mem_dedupByVin (rows : List VehicleRecord) (r : VehicleRecord)
    (h : r ∈ dedupByVin rows) : r ∈ rows := by
  unfold dedupByVin at h
  rcases dedup_sub rows [] r h with h2 | h2
  · simp at h2
  · exact h2

/-- The scrape invariant holds at the end of the crawl loop. -/
theorem scrape_rows_inv (events : List PageEvent) :
    ScrapeInv (events.foldl scrapeStep ⟨[], [], []⟩) := by
  refine foldl_pres ScrapeInv scrapeStep scrapeStep_inv events ⟨[], [], []⟩ ?_
  constructor
  · constructor
    · intro v hv
      simp at hv
    · intro kv hkv
      simp at hkv
  · intro r hr
    simp at hr

/- ------------------------------------------------------------------ -/
/- Claim theorems.                                                     -/
/- ------------------------------------------------------------------ -/

/-- C2 (amended): the Field Resolver's VIN chain consults the sources in
the order JSON-LD structured metadata, then the page's visible text, then
the eligible background-JSON VINs; the first source to succeed wins and no
later source is consulted.  (The claim's order — background JSON before
visible text — is refuted by `vin_background_after_text`.) -/
theorem vin_sources_order (pg : Page) (hint : String)
    (jsonVins usedVins : List String) :
    (fillVinFromJson (extract_specs_from_html pg hint) jsonVins usedVins).vin =
      vinPrecedence pg jsonVins usedVins := by
  unfold vinPrecedence
  cases hld : (ldScanScripts pg.scripts).1 with
  | some v =>
    have hv := ldScan_vin pg.scripts v hld
    have hvin : (extract_specs_from_html pg hint).vin = v := by
      rw [extract_vin_eq, hld]
      rfl
    unfold fillVinFromJson
    rw [if_neg]
    · exact hvin
    · intro hc
      exact vinFull_ne_empty v hv (hvin ▸ hc.1)
  | none =>
    cases ht : textVinToken pg.text with
    | some t =>
      have hvin : (extract_specs_from_html pg hint).vin = pyUpper (⟨t⟩ : String) := by
        rw [extract_vin_eq, hld, ht]
        rfl
      have hv := textVinToken_valid pg.text t ht
      have hne : pyUpper (⟨t⟩ : String) ≠ "" := by
        rw [vinFull_pyUpper _ hv]
        exact vinFull_ne_empty _ hv
      unfold fillVinFromJson
      rw [if_neg]
      · exact hvin
      · intro hc
        exact hne (hvin ▸ hc.1)
    | none =>
      have hvin : (extract_specs_from_html pg hint).vin = "" := by
        rw [extract_vin_eq, hld, ht]
        rfl
      unfold fillVinFromJson
      by_cases hj : jsonVins = []
      · subst hj
        rw [if_neg]
        · rw [hvin]
          rfl
        · intro hc
          exact hc.2 rfl
      · rw [if_pos ⟨hvin, hj⟩]
        cases hf : jsonVins.find? (fun v => decide (v ∉ usedVins)) with
        | some v => simp [hf]
        | none => simp [hf, hvin]

/-- C2 counterexample: a page whose JSON-LD yields no VIN but whose
visible text carries one, while an eligible (unused) VIN was observed in
background JSON.  The code assigns the visible-text VIN, so the background
source is not consulted before the visible text as the claim states. -/
theorem vin_background_after_text :
    (ldScanScripts pageTextVin.scripts).1 = none ∧
    (textVinToken pageTextVin.text).isSome = true ∧
    (fillVinFromJson (extract_specs_from_html pageTextVin "u")
        ["1FTFW1ET1EFA00001"] []).vin = "1HGCM82633A004352" ∧
    ("1HGCM82633A004352" : String) ≠ "1FTFW1ET1EFA00001" := by
  refine ⟨rfl, by decide, by decide, by decide⟩

/-- C6: every record in the Detail Crawler's final deduplicated result
has a VIN of exactly 17 characters drawn from the VIN alphabet; a page
from which no VIN can be resolved contributes no record at all. -/
theorem scrape_vin_valid (events : List PageEvent) (r : VehicleRecord)
    (hr : r ∈ scrape_today events) :
    r.vin.data.length = 17 ∧ ∀ c ∈ r.vin.data, isVinChar c = true := by
  have hmem : r ∈ (events.foldl scrapeStep ⟨[], [], []⟩).rows :=
    mem_dedupByVin _ r hr
  exact (vinFull_iff _).1 ((scrape_rows_inv events).2 r hmem).1

/-- C6 witness: the invariant checked on a concrete one-page crawl. -/
theorem scrape_vin_valid_w :
    (extract_specs_from_html pageTextVin "h") ∈ scrape_today [eventTextVin] ∧
    ((extract_specs_from_html pageTextVin "h").vin.data.length = 17 ∧
      ∀ c ∈ (extract_specs_from_html pageTextVin "h").vin.data,
        isVinChar c = true) :=
  ⟨by decide, scrape_vin_valid [eventTextVin] _ (by decide)⟩

/-- C10: every price stored in a record by the crawl — whether resolved
from JSON-LD, visible text, or a background JSON response — is the empty
string or the canonical decimal numeral of a non-negative integer. -/
theorem scrape_price_canonical (events : List PageEvent) (r : VehicleRecord)
    (hr : r ∈ scrape_today events) :
    r.price = "" ∨ ∃ n : Nat, r.price = Nat.repr n := by
  have hmem : r ∈ (events.foldl scrapeStep ⟨[], [], []⟩).rows :=
    mem_dedupByVin _ r hr
  exact ((scrape_rows_inv events).2 r hmem).2

/-- C10 witness: the invariant checked on a concrete one-page crawl. -/
theorem scrape_price_canonical_w :
    (extract_specs_from_html pageTextVin "h") ∈ scrape_today [eventTextVin] ∧
    ((extract_specs_from_html pageTextVin "h").price = "" ∨
      ∃ n : Nat, (extract_specs_from_html pageTextVin "h").price = Nat.repr n) :=
  ⟨by decide, scrape_price_canonical [eventTextVin] _ (by decide)⟩

/-- C9: the Field Resolver is a pure, deterministic function of the page
content and URL hint: identical inputs give identical records (it is a
Lean function, hence performs no I/O). -/
theorem extract_deterministic (p1 p2 : Page) (h1 h2 : String)
    (hp : p1 = p2) (hh : h1 = h2) :
    extract_specs_from_html p1 h1 = extract_specs_from_html p2 h2 := by
  subst hp
  subst hh
  rfl

/-- C9 witness: determinism instantiated at a concrete page. -/
theorem extract_deterministic_w :
    pagePlain = pagePlain ∧ ("u" : String) = "u" ∧
    extract_specs_from_html pagePlain "u" = extract_specs_from_html pagePlain "u" :=
  ⟨rfl, rfl, extract_deterministic pagePlain pagePlain "u" "u" rfl rfl⟩

/-- C7: a missing previous snapshot file is an absent snapshot, not an
error: the diff then adds every current record, removes none, and reports
no price changes. -/
theorem no_prev_snapshot (curr : List VehicleRecord) (today : String) :
    compute_added (load_prev_inventory none) curr = curr ∧
    compute_removed (load_prev_inventory none) curr = [] ∧
    price_changes today (load_prev_inventory none) curr = [] := by
  refine ⟨?_, ?_, ?_⟩ <;> rfl

/-- C3: against a non-empty previous snapshot, `added` holds exactly the
current records whose VIN is not in the previous VIN set, `removed`
exactly the previous records whose VIN is not in the current VIN set, and
the two share no VIN. -/
theorem diff_added_removed (prev curr : List VehicleRecord) (hp : prev ≠ []) :
    (∀ r : VehicleRecord,
        r ∈ compute_added prev curr ↔ r ∈ curr ∧ r.vin ∉ vinColumn prev) ∧
    (∀ r : VehicleRecord,
        r ∈ compute_removed prev curr ↔ r ∈ prev ∧ r.vin ∉ vinColumn curr) ∧
    (∀ a ∈ compute_added prev curr, ∀ b ∈ compute_removed prev curr,
        a.vin ≠ b.vin) := by
  have Hadd : ∀ r : VehicleRecord,
      r ∈ compute_added prev curr ↔ r ∈ curr ∧ r.vin ∉ vinColumn prev := by
    intro r
    unfold compute_added
    rw [if_neg hp, List.mem_filter]
    simp only [Bool.and_eq_true, decide_eq_true_eq]
    constructor
    · rintro ⟨h1, _, h3⟩
      exact ⟨h1, h3⟩
    · rintro ⟨h1, h2⟩
      exact ⟨h1, List.mem_map_of_mem _ h1, h2⟩
  have Hrem : ∀ r : VehicleRecord,
      r ∈ compute_removed prev curr ↔ r ∈ prev ∧ r.vin ∉ vinColumn curr := by
    intro r
    unfold compute_removed
    rw [if_neg hp, List.mem_filter]
    simp only [Bool.and_eq_true, decide_eq_true_eq]
    constructor
    · rintro ⟨h1, _, h3⟩
      exact ⟨h1, h3⟩
    · rintro ⟨h1, h2⟩
      exact ⟨h1, List.mem_map_of_mem _ h1, h2⟩
  refine ⟨Hadd, Hrem, ?_⟩
  intro a ha b hb hab
  obtain ⟨_, ha2⟩ := (Hadd a).1 ha
  obtain ⟨hb1, _⟩ := (Hrem b).1 hb
  exact ha2 (hab ▸ List.mem_map_of_mem _ hb1)

/-- C3 witness: the diff characterisation at a concrete snapshot pair. -/
theorem diff_added_removed_w :
    (([recCivic] : List VehicleRecord) ≠ []) ∧
    ((∀ r : VehicleRecord,
        r ∈ compute_added [recCivic] [recF150] ↔
          r ∈ [recF150] ∧ r.vin ∉ vinColumn [recCivic]) ∧
     (∀ r : VehicleRecord,
        r ∈ compute_removed [recCivic] [recF150] ↔
          r ∈ [recCivic] ∧ r.vin ∉ vinColumn [recF150]) ∧
     (∀ a ∈ compute_added [recCivic] [recF150],
        ∀ b ∈ compute_removed [recCivic] [recF150], a.vin ≠ b.vin)) :=
  ⟨by decide, diff_added_removed [recCivic] [recF150] (by decide)⟩

/-- C5: a price-change entry exists for a VIN exactly when a previous and
a current record share that VIN and both prices parse as integers and
differ; the entry then records both prices and the exact signed delta
`new - old`; pairs with a missing or unparseable price on either side are
silently excluded. -/
theorem price_changes_iff (today : String) (prev curr : List VehicleRecord)
    (e : PriceChange) :
    e ∈ price_changes today prev curr ↔
      ∃ p ∈ prev, ∃ c ∈ curr, c.vin = p.vin ∧
        ∃ o n : Int, to_int p.price = some o ∧ to_int c.price = some n ∧
          o ≠ n ∧ e = mkPriceChange today p c o n ∧
          e.delta = toString (n - o) := by
  unfold price_changes
  by_cases hp : prev = []
  · subst hp
    simp
  · rw [if_neg hp, List.mem_filterMap]
    constructor
    · rintro ⟨pc, hpc, hf⟩
      unfold mergedPairs at hpc
      rw [List.mem_flatMap] at hpc
      obtain ⟨p, hp', hpc⟩ := hpc
      rw [List.mem_map] at hpc
      obtain ⟨c, hc', heq⟩ := hpc
      subst heq
      rw [List.mem_filter] at hc'
      obtain ⟨hcm, hcv⟩ := hc'
      simp only [decide_eq_true_eq] at hcv
      have hf' : (match to_int p.price, to_int c.price with
          | some o, some n =>
            if o ≠ n then some (mkPriceChange today p c o n) else none
          | _, _ => none) = some e := hf
      cases ho : to_int p.price with
      | none => rw [ho] at hf'; simp at hf'
      | some o =>
        cases hn : to_int c.price with
        | none => rw [ho, hn] at hf'; simp at hf'
        | some n =>
          rw [ho, hn] at hf'
          have hf2 : (if o ≠ n then some (mkPriceChange today p c o n)
              else none) = some e := hf'
          split at hf2
          · rename_i hon
            injection hf2 with hf2
            refine ⟨p, hp', c, hcm, hcv, o, n, ho, hn, hon, hf2.symm, ?_⟩
            rw [← hf2]
            rfl
          · simp at hf2
    · rintro ⟨p, hp', c, hc', hvin, o, n, ho, hn, hon, he, _⟩
      refine ⟨(p, c), ?_, ?_⟩
      · unfold mergedPairs
        rw [List.mem_flatMap]
        refine ⟨p, hp', ?_⟩
        rw [List.mem_map]
        refine ⟨c, ?_, rfl⟩
        rw [List.mem_filter]
        exact ⟨hc', by simp [hvin]⟩
      · show (match to_int p.price, to_int c.price with
            | some o, some n =>
              if o ≠ n then some (mkPriceChange today p c o n) else none
            | _, _ => none) = some e
        rw [ho, hn]
        show (if o ≠ n then some (mkPriceChange today p c o n) else none) = some e
        rw [if_pos hon, he]

instance : IsTrans (String × String × String) keyLe := by
  constructor
  intro a b c hab hbc
  unfold keyLe at hab hbc ⊢
  rcases hab with h1 | ⟨h1, h2⟩
  · rcases hbc with g1 | ⟨g1, g2⟩
    · exact Or.inl (lt_trans h1 g1)
    · exact Or.inl (by rw [← g1]; exact h1)
  · rcases hbc with g1 | ⟨g1, g2⟩
    · exact Or.inl (by rw [h1]; exact g1)
    · refine Or.inr ⟨h1.trans g1, ?_⟩
      rcases h2 with h2 | ⟨h2, h3⟩
      · rcases g2 with g2 | ⟨g2, g3⟩
        · exact Or.inl (lt_trans h2 g2)
        · exact Or.inl (by rw [← g2]; exact h2)
      · rcases g2 with g2 | ⟨g2, g3⟩
        · exact Or.inl (by rw [h2]; exact g2)
        · exact Or.inr ⟨h2.trans g2, le_trans h3 g3⟩

instance : IsTotal (String × String × String) keyLe := by
  constructor
  intro a b
  unfold keyLe
  rcases lt_trichotomy a.1 b.1 with h | h | h
  · exact Or.inl (Or.inl h)
  · rcases lt_trichotomy a.2.1 b.2.1 with h2 | h2 | h2
    · exact Or.inl (Or.inr ⟨h, Or.inl h2⟩)
    · rcases le_total a.2.2 b.2.2 with h3 | h3
      · exact Or.inl (Or.inr ⟨h, Or.inr ⟨h2, h3⟩⟩)
      · exact Or.inr (Or.inr ⟨h.symm, Or.inr ⟨h2.symm, h3⟩⟩)
    · exact Or.inr (Or.inr ⟨h.symm, Or.inl h2⟩)
  · exact Or.inr (Or.inl h)

/-- Mapping a function that fixes every member is the identity. -/
theorem map_eq_self_of_eq {α : Type} (f : α → α) :
    ∀ (l : List α), (∀ a ∈ l, f a = a) → l.map f = l := by
  intro l
  induction l with
  | nil => intro _; rfl
  | cons a l ih =>
    intro h
    rw [List.map_cons, h a (List.mem_cons_self a l),
      ih (fun b hb => h b (List.mem_cons_of_mem a hb))]

/-- The key of a built rollup row is the key it was built from. -/
theorem rgKey_mkGroup (records : List VehicleRecord)
    (k : String × String × String) : rgKey (mkGroup records k) = k := by
  rcases k with ⟨y, mk, md⟩
  rfl

/-- The keys of the rollup rows are the sorted distinct input keys. -/
theorem rollup_keys (records : List VehicleRecord) (h : records ≠ []) :
    (rollup records).map rgKey =
      List.insertionSort keyLe ((records.map recKey).dedup) := by
  unfold rollup
  rw [if_neg h, List.map_map]
  exact map_eq_self_of_eq (rgKey ∘ mkGroup records) _
    (fun k _ => rgKey_mkGroup records k)

/-- C4 (amended): `rollup`'s `count` is the number of records of the
group — equal to the number of distinct VINs whenever the input has no
duplicate VINs, which holds for the snapshots the pipeline feeds it;
`vins` is the sorted duplicate-free VIN list joined with ", "; the rows
are ordered ascending by the (year, make, model) key; empty input yields
empty output.  (For inputs with a repeated VIN, `count` exceeds the
distinct-VIN count: see `rollup_count_not_distinct`.) -/
theorem rollup_correct (records : List VehicleRecord)
    (h : (records.map (fun r => r.vin)).Nodup) :
    rollup ([] : List VehicleRecord) = [] ∧
    List.Sorted keyLe ((rollup records).map rgKey) ∧
    ∀ g ∈ rollup records,
      g.count = ((groupRecs records (rgKey g)).map (fun r => r.vin)).dedup.length ∧
      g.vins = String.intercalate ", " (groupVins records (rgKey g)) ∧
      List.Sorted (fun a b => a ≤ b) (groupVins records (rgKey g)) ∧
      (groupVins records (rgKey g)).Nodup := by
  refine ⟨rfl, ?_, ?_⟩
  · by_cases hrec : records = []
    · subst hrec
      simp [rollup]
    · rw [rollup_keys records hrec]
      exact List.sorted_insertionSort keyLe _
  · intro g hg
    unfold rollup at hg
    split at hg
    · simp at hg
    · rw [List.mem_map] at hg
      obtain ⟨k, _, hgk⟩ := hg
      subst hgk
      rw [rgKey_mkGroup]
      refine ⟨?_, rfl, ?_, ?_⟩
      · have hsub : ((groupRecs records k).map (fun r => r.vin)).Sublist
            (records.map (fun r => r.vin)) :=
          List.Sublist.map _ (List.filter_sublist records)
        have hnd : ((groupRecs records k).map (fun r => r.vin)).Nodup :=
          h.sublist hsub
        rw [List.dedup_eq_self.2 hnd, List.length_map]
        rfl
      · exact List.sorted_insertionSort _ _
      · unfold groupVins
        exact (List.perm_insertionSort _ _).nodup_iff.2 (List.nodup_dedup _)

/-- C4 witness: the amended rollup specification at a concrete VIN-unique
input. -/
theorem rollup_correct_w :
    (([recCivic, recF150].map (fun r => r.vin)).Nodup) ∧
    (rollup ([] : List VehicleRecord) = [] ∧
     List.Sorted keyLe ((rollup [recCivic, recF150]).map rgKey) ∧
     ∀ g ∈ rollup [recCivic, recF150],
       g.count = ((groupRecs [recCivic, recF150] (rgKey g)).map
           (fun r => r.vin)).dedup.length ∧
       g.vins = String.intercalate ", "
           (groupVins [recCivic, recF150] (rgKey g)) ∧
       List.Sorted (fun a b => a ≤ b) (groupVins [recCivic, recF150] (rgKey g)) ∧
       (groupVins [recCivic, recF150] (rgKey g)).Nodup) :=
  ⟨by decide, rollup_correct [recCivic, recF150] (by decide)⟩

/-- C4 counterexample: feeding the same record twice, the single group's
`count` is 2 (pandas `count` counts rows) while the group holds one
distinct VIN — so `count` is not "the number of distinct VINs" for every
input record set. -/
theorem rollup_count_not_distinct :
    (rollup [recCivic, recCivic]).map (fun g => g.count) = [2] ∧
    ((groupRecs [recCivic, recCivic] ("2020", "HONDA", "CIVIC")).map
        (fun r => r.vin)).dedup.length = 1 ∧
    (2 : Nat) ≠ 1 := by
  refine ⟨by decide, by decide, by decide⟩

/-- A string is empty exactly when its character list is. -/
theorem string_eq_empty_iff_data (s : String) : s = "" ↔ s.data = [] := by
  constructor
  · intro h
    rw [h]
  · intro h
    rcases s with ⟨d⟩
    exact congrArg String.mk h

/-- Upper-casing preserves non-emptiness. -/
theorem pyUpper_ne_empty (s : String) (h : s ≠ "") : pyUpper s ≠ "" := by
  intro he
  apply h
  rw [string_eq_empty_iff_data] at he ⊢
  unfold pyUpper at he
  simpa using he

/-- The make field of an extracted record, spelled out. -/
theorem extract_make_eq (pg : Page) (hint : String) :
    (extract_specs_from_html pg hint).make =
      (specBlockAdjust pg.specBlockText
        ((yearSearch (pyUpper (pyStrip pg.title))).getD "")
        (urlMM (resolvedUrl pg hint)).1 (urlMM (resolvedUrl pg hint)).2).2.1 := rfl

/-- The model field of an extracted record, spelled out. -/
theorem extract_model_eq (pg : Page) (hint : String) :
    (extract_specs_from_html pg hint).model =
      (specBlockAdjust pg.specBlockText
        ((yearSearch (pyUpper (pyStrip pg.title))).getD "")
        (urlMM (resolvedUrl pg hint)).1 (urlMM (resolvedUrl pg hint)).2).2.2 := rfl

/-- When the URL has at least two inventory-relative segments, `urlMM`
returns their upper-casings. -/
theorem urlMM_of_parts (url m md : String) (rest : List String)
    (hne : url ≠ "") (hinv : hasInventory url = true)
    (hparts : urlParts url = m :: md :: rest) :
    urlMM url = (pyUpper m, pyUpper md) := by
  unfold urlMM
  rw [if_pos ⟨hne, hinv⟩, hparts]

/-- A SPECIFICATIONS block never changes a non-empty make. -/
theorem specBlockAdjust_make (blkText : Option String)
    (year make model : String) (h : make ≠ "") :
    (specBlockAdjust blkText year make model).2.1 = make := by
  cases blkText with
  | none => rfl
  | some b =>
    show (if make = "" then
        match searchLabel "MAKE" (pyUpper b) with
        | some v => pyStrip v
        | none => make
      else make) = make
    rw [if_neg h]

/-- A SPECIFICATIONS block never changes a non-empty model. -/
theorem specBlockAdjust_model (blkText : Option String)
    (year make model : String) (h : model ≠ "") :
    (specBlockAdjust blkText year make model).2.2 = model := by
  cases blkText with
  | none => rfl
  | some b =>
    show (if model = "" then
        match searchLabel "MODEL" (pyUpper b) with
        | some v => pyStrip v
        | none => model
      else model) = model
    rw [if_neg h]

/-- C8: for a page whose resolved URL contains the inventory marker and
yields at least two path segments after it, the returned make and model
are the upper-cased first and second segments — a SPECIFICATIONS block's
MAKE/MODEL labels never override them (they only fill values still
empty). -/
theorem url_make_model (pg : Page) (hint m md : String) (rest : List String)
    (hinv : hasInventory (resolvedUrl pg hint) = true)
    (hparts : urlParts (resolvedUrl pg hint) = m :: md :: rest) :
    (extract_specs_from_html pg hint).make = pyUpper m ∧
    (extract_specs_from_html pg hint).model = pyUpper md := by
  have hne : resolvedUrl pg hint ≠ "" := by
    intro he
    rw [he] at hinv
    exact absurd hinv (by decide)
  have hm : m ≠ "" := by
    have hmem : m ∈ urlParts (resolvedUrl pg hint) := by
      rw [hparts]
      exact List.mem_cons_self _ _
    unfold urlParts at hmem
    rw [List.mem_filter] at hmem
    simpa using hmem.2
  have hmd : md ≠ "" := by
    have hmem : md ∈ urlParts (resolvedUrl pg hint) := by
      rw [hparts]
      exact List.mem_cons_of_mem _ (List.mem_cons_self _ _)
    unfold urlParts at hmem
    rw [List.mem_filter] at hmem
    simpa using hmem.2
  have hmm := urlMM_of_parts (resolvedUrl pg hint) m md rest hne hinv hparts
  constructor
  · rw [extract_make_eq, hmm]
    exact specBlockAdjust_make _ _ _ _ (pyUpper_ne_empty m hm)
  · rw [extract_model_eq, hmm]
    exact specBlockAdjust_model _ _ _ _ (pyUpper_ne_empty md hmd)

/-- C8 witness: the URL-derived make/model at a concrete page whose URL
yields three segments, with a SPECIFICATIONS block present. -/
theorem url_make_model_w :
    hasInventory (resolvedUrl
      ⟨[], "", "", none, some "SPECIFICATIONS MAKE AUDI MODEL A4"⟩
      "https://x/inventory/honda/civic/2020-honda-civic") = true ∧
    urlParts (resolvedUrl
      ⟨[], "", "", none, some "SPECIFICATIONS MAKE AUDI MODEL A4"⟩
      "https://x/inventory/honda/civic/2020-honda-civic") =
      "honda" :: "civic" :: ["2020-honda-civic"] ∧
    ((extract_specs_from_html
        ⟨[], "", "", none, some "SPECIFICATIONS MAKE AUDI MODEL A4"⟩
        "https://x/inventory/honda/civic/2020-honda-civic").make =
          pyUpper "honda" ∧
     (extract_specs_from_html
        ⟨[], "", "", none, some "SPECIFICATIONS MAKE AUDI MODEL A4"⟩
        "https://x/inventory/honda/civic/2020-honda-civic").model =
          pyUpper "civic") :=
  ⟨by decide, by decide,
    url_make_model _ _ "honda" "civic" ["2020-honda-civic"] (by decide) (by decide)⟩

/-- Closed form of the BFS on the chained session: after `n` iterations
starting with pages `0..k-1` visited and page `k` queued, pages
`0..k+n-1` are visited and page `k+n` is queued. -/
theorem chain_run_formula : ∀ (n k : Nat),
    crawlRun navAlways harvestNone chainNext n ⟨[], List.range k, [k]⟩ =
      ⟨[], List.range (k + n), [k + n]⟩ := by
  intro n
  induction n with
  | zero => intro k; rfl
  | succ n ih =>
    intro k
    have hstep : crawlStep navAlways harvestNone chainNext
        ⟨[], List.range k, [k]⟩ = some ⟨[], List.range (k + 1), [k + 1]⟩ := by
      simp [crawlStep, navAlways, harvestNone, chainNext, List.mem_range,
        List.range_succ]
    have hrun : crawlRun navAlways harvestNone chainNext (n + 1)
        ⟨[], List.range k, [k]⟩ =
        crawlRun navAlways harvestNone chainNext n
          ⟨[], List.range (k + 1), [k + 1]⟩ := by
      simp [crawlRun, hstep]
    rw [hrun, ih (k + 1)]
    have : k + 1 + n = k + (n + 1) := by omega
    rw [this]

/-- C1 counterexample: on the chained session the BFS of
`collect_vehicle_urls` neither drains its work queue nor stops at any
page-visit cap — the code contains no such cap, so the number of listing
pages visited exceeds every bound when pages keep producing new
pagination links. -/
theorem crawl_no_visit_cap : crawlVisitsUnbounded := by
  constructor
  · intro N
    refine ⟨N + 1, ?_⟩
    show N < (crawlRun navAlways harvestNone chainNext (N + 1)
      ⟨[], List.range 0, [0]⟩).seen.length
    rw [chain_run_formula (N + 1) 0]
    simp
  · intro fuel
    show (crawlRun navAlways harvestNone chainNext fuel
      ⟨[], List.range 0, [0]⟩).queue ≠ []
    rw [chain_run_formula fuel 0]
    simp

/-- Every member of a list of naturals is at most its max-fold. -/
theorem le_foldr_max : ∀ (l : List Nat) (x : Nat), x ∈ l → x ≤ l.foldr max 0 := by
  intro l
  induction l with
  | nil => intro x hx; simp at hx
  | cons a l ih =>
    intro x hx
    rcases List.mem_cons.1 hx with h | h
    · rw [h]
      exact le_max_left _ _
    · exact le_trans (ih x h) (le_max_right _ _)

/-- C1 (amended): the BFS visits each listing page at most once thanks to
the visited-set guard, so whenever the URLs reachable through pagination
links form a finite universe `U` the work queue drains to empty — the
termination the code actually guarantees.  There is no page-visit cap:
with an infinite universe the loop runs forever (`crawl_no_visit_cap`). -/
theorem crawl_terminates {α : Type} [DecidableEq α] (nav : α → Bool)
    (harvest nxt : α → List α) (U : List α) (s₀ : CrawlState α)
    (hq : ∀ u ∈ s₀.queue, u ∈ U) (hnext : ∀ u ∈ U, ∀ v ∈ nxt u, v ∈ U) :
    ∃ fuel : Nat, (crawlRun nav harvest nxt fuel s₀).queue = [] := by
  set F := (U.map (fun u => (nxt u).length)).foldr max 0 with hF
  have main : ∀ (fuel : Nat) (s : CrawlState α),
      (∀ u ∈ s.queue, u ∈ U) →
      (U.toFinset \ s.seen.toFinset).card * (F + 1) + s.queue.length ≤ fuel →
      (crawlRun nav harvest nxt fuel s).queue = [] := by
    intro fuel
    induction fuel with
    | zero =>
      intro s _ hm
      have hlen : s.queue.length = 0 := by
        generalize hP : (U.toFinset \ s.seen.toFinset).card * (F + 1) = P at hm
        omega
      exact List.length_eq_zero.1 hlen
    | succ fuel ih =>
      intro s hqs hm
      cases hqv : s.queue with
      | nil =>
        have hrun : crawlRun nav harvest nxt (fuel + 1) s = s := by
          simp [crawlRun, crawlStep, hqv]
        rw [hrun, hqv]
      | cons url rest =>
        have hqU : ∀ u ∈ url :: rest, u ∈ U := by
          rw [← hqv]
          exact hqs
        have hurlU : url ∈ U := hqU url (List.mem_cons_self _ _)
        have hrestU : ∀ u ∈ rest, u ∈ U :=
          fun u hu => hqU u (List.mem_cons_of_mem _ hu)
        have hlen : s.queue.length = rest.length + 1 := by
          rw [hqv]
          rfl
        by_cases hseen : url ∈ s.seen
        · have hrun : crawlRun nav harvest nxt (fuel + 1) s =
              crawlRun nav harvest nxt fuel ⟨s.links, s.seen, rest⟩ := by
            simp [crawlRun, crawlStep, hqv, hseen]
          rw [hrun]
          apply ih
          · exact hrestU
          · show (U.toFinset \ s.seen.toFinset).card * (F + 1) + rest.length ≤ fuel
            generalize hP : (U.toFinset \ s.seen.toFinset).card * (F + 1) = P at hm ⊢
            omega
        · have hmemsd : url ∈ U.toFinset \ s.seen.toFinset :=
            Finset.mem_sdiff.2 ⟨List.mem_toFinset.2 hurlU,
              fun hc => hseen (List.mem_toFinset.1 hc)⟩
          have hins : (s.seen ++ [url]).toFinset = insert url s.seen.toFinset := by
            ext x
            simp [List.mem_append, or_comm]
          have hsd : U.toFinset \ insert url s.seen.toFinset =
              (U.toFinset \ s.seen.toFinset).erase url := by
            ext x
            simp only [Finset.mem_sdiff, Finset.mem_erase, Finset.mem_insert]
            tauto
          have hcard : (U.toFinset \ (s.seen ++ [url]).toFinset).card + 1 =
              (U.toFinset \ s.seen.toFinset).card := by
            rw [hins, hsd]
            exact Finset.card_erase_add_one hmemsd
          cases hnav : nav url with
          | false =>
            have hrun : crawlRun nav harvest nxt (fuel + 1) s =
                crawlRun nav harvest nxt fuel ⟨s.links, s.seen ++ [url], rest⟩ := by
              simp [crawlRun, crawlStep, hqv, hseen, hnav]
            rw [hrun]
            apply ih
            · exact hrestU
            · show (U.toFinset \ (s.seen ++ [url]).toFinset).card * (F + 1) +
                  rest.length ≤ fuel
              rw [← hcard] at hm
              rw [add_one_mul] at hm
              generalize hP : (U.toFinset \ (s.seen ++ [url]).toFinset).card * (F + 1) = P
                at hm ⊢
              omega
          | true =>
            have hrun : crawlRun nav harvest nxt (fuel + 1) s =
                crawlRun nav harvest nxt fuel
                  ⟨s.links ++ (harvest url).filter (fun x => decide (x ∉ s.links)),
                   s.seen ++ [url],
                   rest ++ (nxt url).filter (fun n => decide (n ∉ s.seen ++ [url]))⟩ := by
              simp [crawlRun, crawlStep, hqv, hseen, hnav]
            rw [hrun]
            apply ih
            · intro u hu
              rcases List.mem_append.1 hu with hu | hu
              · exact hrestU u hu
              · exact hnext url hurlU u (List.mem_filter.1 hu).1
            · show (U.toFinset \ (s.seen ++ [url]).toFinset).card * (F + 1) +
                  (rest ++ (nxt url).filter
                    (fun n => decide (n ∉ s.seen ++ [url]))).length ≤ fuel
              have hflt : ((nxt url).filter
                  (fun n => decide (n ∉ s.seen ++ [url]))).length ≤ F := by
                calc ((nxt url).filter
                    (fun n => decide (n ∉ s.seen ++ [url]))).length
                    ≤ (nxt url).length := List.length_filter_le _ _
                  _ ≤ F := le_foldr_max _ _ (List.mem_map_of_mem _ hurlU)
              rw [List.length_append]
              rw [← hcard] at hm
              rw [add_one_mul] at hm
              generalize hP : (U.toFinset \ (s.seen ++ [url]).toFinset).card * (F + 1) = P
                at hm ⊢
              omega
  exact ⟨(U.toFinset \ s₀.seen.toFinset).card * (F + 1) + s₀.queue.length,
    main _ s₀ hq (le_refl _)⟩

/-- C1 witness: termination of the BFS on a concrete finite two-page
session. -/
theorem crawl_terminates_w :
    (∀ u ∈ (⟨[], [], [0]⟩ : CrawlState Nat).queue, u ∈ [0, 1]) ∧
    (∀ u ∈ [0, 1], ∀ v ∈ (if u = 0 then [1] else []), v ∈ [0, 1]) ∧
    ∃ fuel : Nat, (crawlRun (fun _ => true) (fun _ => [])
      (fun u => if u = 0 then [1] else []) fuel
      (⟨[], [], [0]⟩ : CrawlState Nat)).queue = [] :=
  ⟨by decide, by decide,
    crawl_terminates (fun _ => true) (fun _ => [])
      (fun u => if u = 0 then [1] else []) [0, 1] ⟨[], [], [0]⟩
      (by decide) (by decide)⟩
